import Mathlib

/-!
# mailarchiver: the archiving engine of `mailarchiver.go`

A shallow embedding of the archiving engine: the selector loop of `action`,
`processMailbox`, `moveMessage`, `imapClient.Move` and `mailbox.ensureAvailable`,
together with the two Go standard-library functions whose behaviour decides what
the engine computes (`strings.Split`, `time.Time.Format`).

Go strings are modelled by `String`; all tests the code performs on them
(equality, `strings.HasPrefix`, `strings.Split`, layout scanning) are done on the
character list, which agrees with Go's byte-wise tests on well-formed UTF-8.
The process-wide variables `mailboxes`, `cntMbox`, `cntMsg` are threaded as an
explicit `State`; the counters are Go `int` (64 bit) and cannot overflow within a
run, so they are natural numbers here.
-/

namespace Mailarchiver

/-- A Go `error` value, identified by its message. `none : Option Error` is `nil`. -/
abbrev Error := String

/-! ## Go standard library: `strings` -/

namespace strings

/-- Go `strings.HasPrefix(s, pre)`: `len(s) >= len(pre) && s[:len(pre)] == pre`. -/
def HasPrefix (s pre : String) : Bool :=
  pre.data.isPrefixOf s.data

/-- The scanning loop of Go `strings.genSplit` for a non-empty separator: the
leftmost occurrence of `sep` ends the current piece, scanning resumes right
after it. `skip` counts the characters of a found separator still to be passed
over, `cur` is the piece collected so far. -/
def splitFrom (sep : List Char) : List Char → Nat → List Char → List (List Char)
  | [], _, cur => [cur]
  | _ :: cs, skip + 1, cur => splitFrom sep cs skip cur
  | c :: cs, 0, cur =>
    if sep.isPrefixOf (c :: cs) then
      cur :: splitFrom sep cs (sep.length - 1) []
    else
      splitFrom sep cs 0 (cur ++ [c])

/-- Go `strings.Split(s, sep)`. With an empty separator the string is exploded
into its characters (and the empty string gives no piece at all); otherwise there
is always at least one piece. -/
def Split (s sep : String) : List String :=
  if sep.data = [] then
    s.data.map (fun c => String.mk [c])
  else
    (splitFrom sep.data s.data 0 []).map String.mk

end strings

/-! ## Go standard library: `time` -/

/-- A `time.Time` as the engine observes it: whether it is the zero instant
(`t.Equal(time.Time{})`), and the calendar fields, clock fields and zone of
`t.Local()`. The months are numbered 1 to 12, the weekdays 0 (Sunday) to 6. -/
structure Time where
  isZero : Bool
  year : Int
  month : Nat
  day : Nat
  yday : Nat
  weekday : Nat
  hour : Nat
  minute : Nat
  second : Nat
  nanosecond : Nat
  zoneName : String
  zoneOffset : Int
deriving DecidableEq

/-- The field ranges every real `time.Time` satisfies. -/
def Time.valid (t : Time) : Prop :=
  1 ≤ t.month ∧ t.month ≤ 12 ∧ 1 ≤ t.day ∧ t.day ≤ 31 ∧ 1 ≤ t.yday ∧ t.yday ≤ 366 ∧
  t.weekday ≤ 6 ∧ t.hour ≤ 23 ∧ t.minute ≤ 59 ∧ t.second ≤ 59 ∧ t.nanosecond ≤ 999999999

instance (t : Time) : Decidable t.valid := by
  unfold Time.valid; infer_instance

namespace time

/-- The layout elements recognised by Go `time.nextStdChunk` (`format.go`). The
two fractional-second elements carry their number of digits and their separator. -/
inductive Std where
  | stdLongMonth | stdMonth | stdNumMonth | stdZeroMonth
  | stdLongWeekDay | stdWeekDay
  | stdDay | stdUnderDay | stdZeroDay | stdUnderYearDay | stdZeroYearDay
  | stdHour | stdHour12 | stdZeroHour12
  | stdMinute | stdZeroMinute | stdSecond | stdZeroSecond
  | stdLongYear | stdYear
  | stdPM | stdpm
  | stdTZ
  | stdISO8601TZ | stdISO8601SecondsTZ | stdISO8601ShortTZ
  | stdISO8601ColonTZ | stdISO8601ColonSecondsTZ
  | stdNumTZ | stdNumSecondsTz | stdNumShortTZ | stdNumColonTZ | stdNumColonSecondsTZ
  | stdFracSecond0 (digits : Nat) (sep : Char)
  | stdFracSecond9 (digits : Nat) (sep : Char)
deriving DecidableEq

/-- The test `layout[i:i+len(p)] == p` of the scanner, on the layout from `i` on. -/
def at_ (p : String) (l : List Char) : Bool :=
  p.data.isPrefixOf l

/-- Go `startsWithLowerCase`. -/
def startsWithLowerCase : List Char → Bool
  | [] => false
  | c :: _ => decide ('a'.toNat ≤ c.toNat ∧ c.toNat ≤ 'z'.toNat)

/-- Go `isDigit(s, 0)` on the rest of the layout. -/
def isDigit : List Char → Bool
  | [] => false
  | c :: _ => decide ('0'.toNat ≤ c.toNat ∧ c.toNat ≤ '9'.toNat)

/-- The body of the `switch` of `nextStdChunk` at one position of the layout:
`l` is the layout from that position on. The result is the literal text that is
still part of the chunk before the element (non-empty only for `_2006`), the
element, and the layout after it; `none` when no element starts here. -/
def stdAt (l : List Char) : Option (List Char × Std × List Char) :=
  match l with
  | [] => none
  | c :: t =>
    if c = 'J' then
      if at_ "Jan" l then
        if at_ "January" l then some ([], .stdLongMonth, l.drop 7)
        else if !startsWithLowerCase (l.drop 3) then some ([], .stdMonth, l.drop 3)
        else none
      else none
    else if c = 'M' then
      if at_ "Mon" l then
        if at_ "Monday" l then some ([], .stdLongWeekDay, l.drop 6)
        else if !startsWithLowerCase (l.drop 3) then some ([], .stdWeekDay, l.drop 3)
        else none
      else if at_ "MST" l then some ([], .stdTZ, l.drop 3)
      else none
    else if c = '0' then
      if at_ "01" l then some ([], .stdZeroMonth, l.drop 2)
      else if at_ "02" l then some ([], .stdZeroDay, l.drop 2)
      else if at_ "03" l then some ([], .stdZeroHour12, l.drop 2)
      else if at_ "04" l then some ([], .stdZeroMinute, l.drop 2)
      else if at_ "05" l then some ([], .stdZeroSecond, l.drop 2)
      else if at_ "06" l then some ([], .stdYear, l.drop 2)
      else if at_ "002" l then some ([], .stdZeroYearDay, l.drop 3)
      else none
    else if c = '1' then
      if at_ "15" l then some ([], .stdHour, l.drop 2)
      else some ([], .stdNumMonth, t)
    else if c = '2' then
      if at_ "2006" l then some ([], .stdLongYear, l.drop 4)
      else some ([], .stdDay, t)
    else if c = '_' then
      if at_ "_2" l then
        if at_ "_2006" l then some (['_'], .stdLongYear, l.drop 5)
        else some ([], .stdUnderDay, l.drop 2)
      else if at_ "__2" l then some ([], .stdUnderYearDay, l.drop 3)
      else none
    else if c = '3' then some ([], .stdHour12, t)
    else if c = '4' then some ([], .stdMinute, t)
    else if c = '5' then some ([], .stdSecond, t)
    else if c = 'P' then
      if at_ "PM" l then some ([], .stdPM, l.drop 2) else none
    else if c = 'p' then
      if at_ "pm" l then some ([], .stdpm, l.drop 2) else none
    else if c = '-' then
      if at_ "-070000" l then some ([], .stdNumSecondsTz, l.drop 7)
      else if at_ "-07:00:00" l then some ([], .stdNumColonSecondsTZ, l.drop 9)
      else if at_ "-0700" l then some ([], .stdNumTZ, l.drop 5)
      else if at_ "-07:00" l then some ([], .stdNumColonTZ, l.drop 6)
      else if at_ "-07" l then some ([], .stdNumShortTZ, l.drop 3)
      else none
    else if c = 'Z' then
      if at_ "Z070000" l then some ([], .stdISO8601SecondsTZ, l.drop 7)
      else if at_ "Z07:00:00" l then some ([], .stdISO8601ColonSecondsTZ, l.drop 9)
      else if at_ "Z0700" l then some ([], .stdISO8601TZ, l.drop 5)
      else if at_ "Z07:00" l then some ([], .stdISO8601ColonTZ, l.drop 6)
      else if at_ "Z07" l then some ([], .stdISO8601ShortTZ, l.drop 3)
      else none
    else if c = '.' ∨ c = ',' then
      match t with
      | [] => none
      | ch :: _ =>
        if ch = '0' ∨ ch = '9' then
          let run := t.takeWhile (fun x => x == ch)
          let rest := t.dropWhile (fun x => x == ch)
          if !isDigit rest then
            if ch = '9' then some ([], .stdFracSecond9 run.length c, rest)
            else some ([], .stdFracSecond0 run.length c, rest)
          else none
        else none
    else none

/-- Go `time.nextStdChunk(layout)`: the literal text before the first layout
element, that element (`none` for Go's `std == 0`) and the layout after it. `pre`
accumulates the literal text already scanned. -/
def nextStdChunk (pre : List Char) : List Char → List Char × Option Std × List Char
  | [] => (pre, none, [])
  | c :: cs =>
    match stdAt (c :: cs) with
    | some (lit, std, rest) => (pre ++ lit, some std, rest)
    | none => nextStdChunk (pre ++ [c]) cs

/-- Go `time.appendInt(b, x, width)`: the decimal digits of `|x|`, zero-padded on
the left to `width` digits, after a minus sign when `x` is negative. -/
def appendInt (x : Int) (width : Nat) : List Char :=
  let digits := Nat.toDigits 10 x.natAbs
  (if x < 0 then ['-'] else []) ++ List.replicate (width - digits.length) '0' ++ digits

/-- Go `longMonthNames`. -/
def longMonthNames : List String :=
  ["January", "February", "March", "April", "May", "June", "July", "August",
   "September", "October", "November", "December"]

/-- Go `longDayNames`. -/
def longDayNames : List String :=
  ["Sunday", "Monday", "Tuesday", "Wednesday", "Thursday", "Friday", "Saturday"]

/-- Go `Month.String`. -/
def monthString (m : Nat) : List Char :=
  if 1 ≤ m ∧ m ≤ 12 then (longMonthNames.getD (m - 1) "").data
  else "%!Month(".data ++ Nat.toDigits 10 m ++ [')']

/-- Go `Weekday.String`. -/
def weekdayString (d : Nat) : List Char :=
  if d ≤ 6 then (longDayNames.getD d "").data
  else "%!Weekday(".data ++ Nat.toDigits 10 d ++ [')']

/-- Removes the trailing zeros of a digit string (the trimming loop of `appendNano`). -/
def trimZeros (ds : List Char) : List Char :=
  (ds.reverse.dropWhile (fun x => x == '0')).reverse

/-- Go `time.appendNano`: the separator and the first `n` of the nine nanosecond
digits; for the `9` form trailing zeros, and then a bare separator, are dropped. -/
def appendNano (nanosec : Nat) (n : Nat) (sep : Char) (trim : Bool) : List Char :=
  if trim && (n == 0 || nanosec == 0) then []
  else
    let ds := (appendInt nanosec 9).take n
    if trim then
      let ds1 := trimZeros ds
      if ds1 = [] then [] else sep :: ds1
    else sep :: ds

/-- The numeric zone rendering of `appendFormat` for the `-07…` and `Z07…` elements. -/
def appendZone (offset : Int) (colon short seconds : Bool) : List Char :=
  let zone := Int.tdiv offset 60
  let sign : List Char := if zone < 0 then ['-'] else ['+']
  let zone1 := if zone < 0 then -zone else zone
  let absoffset := if zone < 0 then -offset else offset
  sign ++ appendInt (Int.tdiv zone1 60) 2 ++ (if colon then [':'] else []) ++
    (if short then [] else appendInt (Int.tmod zone1 60) 2) ++
    (if seconds then (if colon then [':'] else []) ++ appendInt (Int.tmod absoffset 60) 2 else [])

/-- The `switch std & stdMask` of Go `Time.appendFormat`: the text one layout
element stands for at time `t`. -/
def render (t : Time) : Std → List Char
  | .stdYear => appendInt (Int.tmod (if t.year < 0 then -t.year else t.year) 100) 2
  | .stdLongYear => appendInt t.year 4
  | .stdMonth => (monthString t.month).take 3
  | .stdLongMonth => monthString t.month
  | .stdNumMonth => appendInt t.month 0
  | .stdZeroMonth => appendInt t.month 2
  | .stdWeekDay => (weekdayString t.weekday).take 3
  | .stdLongWeekDay => weekdayString t.weekday
  | .stdDay => appendInt t.day 0
  | .stdUnderDay => (if t.day < 10 then [' '] else []) ++ appendInt t.day 0
  | .stdZeroDay => appendInt t.day 2
  | .stdUnderYearDay =>
    (if t.yday < 100 then [' '] ++ (if t.yday < 10 then [' '] else []) else []) ++
      appendInt t.yday 0
  | .stdZeroYearDay => appendInt t.yday 3
  | .stdHour => appendInt t.hour 2
  | .stdHour12 => appendInt (if t.hour % 12 = 0 then 12 else t.hour % 12 : Nat) 0
  | .stdZeroHour12 => appendInt (if t.hour % 12 = 0 then 12 else t.hour % 12 : Nat) 2
  | .stdMinute => appendInt t.minute 0
  | .stdZeroMinute => appendInt t.minute 2
  | .stdSecond => appendInt t.second 0
  | .stdZeroSecond => appendInt t.second 2
  | .stdPM => if t.hour ≥ 12 then "PM".data else "AM".data
  | .stdpm => if t.hour ≥ 12 then "pm".data else "am".data
  | .stdISO8601TZ => if t.zoneOffset = 0 then ['Z'] else appendZone t.zoneOffset false false false
  | .stdISO8601ColonTZ =>
    if t.zoneOffset = 0 then ['Z'] else appendZone t.zoneOffset true false false
  | .stdISO8601SecondsTZ =>
    if t.zoneOffset = 0 then ['Z'] else appendZone t.zoneOffset false false true
  | .stdISO8601ShortTZ =>
    if t.zoneOffset = 0 then ['Z'] else appendZone t.zoneOffset false true false
  | .stdISO8601ColonSecondsTZ =>
    if t.zoneOffset = 0 then ['Z'] else appendZone t.zoneOffset true false true
  | .stdNumTZ => appendZone t.zoneOffset false false false
  | .stdNumColonTZ => appendZone t.zoneOffset true false false
  | .stdNumSecondsTz => appendZone t.zoneOffset false false true
  | .stdNumShortTZ => appendZone t.zoneOffset false true false
  | .stdNumColonSecondsTZ => appendZone t.zoneOffset true false true
  | .stdTZ =>
    if t.zoneName ≠ "" then t.zoneName.data else appendZone t.zoneOffset false false false
  | .stdFracSecond0 n sep => appendNano t.nanosecond n sep false
  | .stdFracSecond9 n sep => appendNano t.nanosecond n sep true

/-- The loop of Go `Time.appendFormat`: literal text is copied, each element is
replaced by its rendering. Every round consumes at least one character of the
layout, so `fuel = len(layout)` rounds always suffice. -/
def appendFormat (t : Time) : Nat → List Char → List Char
  | 0, _ => []
  | fuel + 1, layout =>
    if layout = [] then []
    else
      match nextStdChunk [] layout with
      | (lit, none, _) => lit
      | (lit, some std, rest) => lit ++ render t std ++ appendFormat t fuel rest

end time

/-- Go `t.Format(layout)` (on the local time the `Time` record holds). -/
def Time.Format (t : Time) (layout : String) : String :=
  String.mk (time.appendFormat t layout.data.length layout.data)

/-! ## Data model -/

/-- The `mailbox` struct. -/
structure mailbox where
  Name : String
  Delimiter : String
deriving DecidableEq

/-- The fields of the `configuration` struct the engine reads (`Host`, `Port`,
`User` and `Pass` are used only to open the session). -/
structure configuration where
  Dry : Bool
  SkipCurrent : Bool
  Archive : String
  Mailboxes : List String
  RecursiveMailboxes : List String
  IgnoreMailboxes : List String
deriving DecidableEq

/-- The part of an `imap.Message` the engine reads: `Uid` (a `uint32`) and
`Envelope.Date`. -/
structure Message where
  Uid : Nat
  Date : Time
deriving DecidableEq

/-- The commands the engine sends over the session. -/
inductive Command where
  | select (name : String)
  | uidFetch
  | create (name : String)
  | uidMove (uid : Nat) (target : String)
  | uidCopy (uid : Nat) (target : String)
  | uidStore (uid : Nat)
  | expunge
  | logout
deriving DecidableEq

/-- The mail session and the rest of the environment of a run. The answers of the
server may depend on everything sent before: `respond log c` is the error (or
`none`) the session returns for command `c` after the commands `log`, and
`envelopes log` are the messages a `UID FETCH 1:*` streams at that point.
`supportMove` is the capability flag `getClient` stores once; `parseSeqSet` is the
error result of `imap.ParseSeqSet`; `now log` is `time.Now().Local()` at the
moment the commands `log` have been sent. -/
structure Session where
  supportMove : Bool
  respond : List Command → Command → Option Error
  envelopes : List Command → List Message
  parseSeqSet : String → Option Error
  now : List Command → Time

/-- The process-wide variables `mailboxes`, `cntMbox`, `cntMsg`, and the commands
sent to the server so far (oldest first). -/
structure State where
  mailboxes : List mailbox
  cntMbox : Nat
  cntMsg : Nat
  log : List Command
deriving DecidableEq

/-- Sends one command: it is appended to the log and the session's answer returned. -/
def send (sess : Session) (s : State) (c : Command) : State × Option Error :=
  ({ s with log := s.log ++ [c] }, sess.respond s.log c)

/-! ## Operations -/

/-- The method `imapClient.Move`: one `UID MOVE` when the server supports it,
otherwise `UID COPY`, `UID STORE +FLAGS (\Deleted)` and `EXPUNGE`, stopping at the
first error. -/
def imapClient.Move (sess : Session) (s : State) (uid : Nat) (target : String) :
    State × Option Error :=
  if sess.supportMove then
    match send sess s (.uidMove uid target) with
    | (s1, some err) => (s1, some err)
    | (s1, none) => (s1, none)
  else
    match send sess s (.uidCopy uid target) with
    | (s1, some err) => (s1, some err)
    | (s1, none) =>
      match send sess s1 (.uidStore uid) with
      | (s2, some err) => (s2, some err)
      | (s2, none) =>
        match send sess s2 .expunge with
        | (s3, some err) => (s3, some err)
        | (s3, none) => (s3, none)

/-- The function `moveMessage`. The named result `err` is assigned only by
`imap.ParseSeqSet`; the value returned by `c.Move` is not assigned to anything. -/
def moveMessage (cfg : configuration) (sess : Session) (s : State) (uid : Nat)
    (mbox : mailbox) : State × Option Error :=
  match sess.parseSeqSet (toString uid) with
  | some err => (s, some err)
  | none =>
    if !cfg.Dry then
      ((imapClient.Move sess s uid mbox.Name).1, none)
    else
      (s, none)

/-- The inner loop `for i := 0; i <= pI; i++` of `ensureAvailable`, from `i` on:
the delimiter is put in front of `parts[i]` only when `target` is not empty. -/
def buildTarget (delimiter : String) : List String → String → String
  | [], target => target
  | p :: ps, target =>
    buildTarget delimiter ps ((if target.length > 0 then target ++ delimiter else target) ++ p)

/-- The `target` that `ensureAvailable` computes for index `pI`. -/
def targetAt (parts : List String) (delimiter : String) (pI : Nat) : String :=
  buildTarget delimiter (parts.take (pI + 1)) ""

/-- Whether some catalog entry has the name `target` (the loop setting `exists`). -/
def catalogHas (mailboxes : List mailbox) (target : String) : Bool :=
  mailboxes.any (fun m => m.Name == target)

/-- The loop `for pI := range parts` of `ensureAvailable`, over the indices still
to visit. -/
def ensureLoop (cfg : configuration) (sess : Session) (mbox : mailbox) (parts : List String) :
    List Nat → State → State × Option Error
  | [], s => (s, none)
  | pI :: rest, s =>
    let target := targetAt parts mbox.Delimiter pI
    if !catalogHas s.mailboxes target then
      if !cfg.Dry then
        match send sess s (.create target) with
        | (s1, some err) => (s1, some err)
        | (s1, none) =>
          ensureLoop cfg sess mbox parts rest
            { s1 with mailboxes := s1.mailboxes ++ [⟨target, mbox.Delimiter⟩] }
      else
        ensureLoop cfg sess mbox parts rest
          { s with mailboxes := s.mailboxes ++ [⟨target, mbox.Delimiter⟩] }
    else
      ensureLoop cfg sess mbox parts rest s

/-- The method `mailbox.ensureAvailable`. -/
def mailbox.ensureAvailable (cfg : configuration) (sess : Session) (mbox : mailbox)
    (s : State) : State × Option Error :=
  let parts := strings.Split mbox.Name mbox.Delimiter
  ensureLoop cfg sess mbox parts (List.range parts.length) s

/-- Lines 324-337 of `processMailbox`: the value of `mboxTargetName` for one
message, `none` when the message is skipped by `continue`. -/
def mboxTargetName (cfg : configuration) (mbox : mailbox) (currentDate : Time)
    (msg : Message) : Option String :=
  if msg.Date.isZero then
    some cfg.Archive
  else
    if cfg.SkipCurrent && decide (currentDate.year = msg.Date.year)
        && decide (currentDate.month = msg.Date.month) then
      none
    else
      some (cfg.Archive ++ mbox.Delimiter ++
        msg.Date.Format ("2006" ++ mbox.Delimiter ++ "01"))

/-- The body of the loop `for _, msg := range messages` of `processMailbox`. -/
def processMessage (cfg : configuration) (sess : Session) (mbox : mailbox)
    (currentDate : Time) (s : State) (msg : Message) : State × Option Error :=
  match mboxTargetName cfg mbox currentDate msg with
  | none => (s, none)
  | some name =>
    let mboxTarget : mailbox := ⟨name, mbox.Delimiter⟩
    if mbox.Name ≠ mboxTarget.Name then
      match mboxTarget.ensureAvailable cfg sess s with
      | (s1, some err) => (s1, some err)
      | (s1, none) =>
        match moveMessage cfg sess s1 msg.Uid mboxTarget with
        | (s2, some err) => (s2, some err)
        | (s2, none) => ({ s2 with cntMsg := s2.cntMsg + 1 }, none)
    else
      (s, none)

/-- The loop `for _, msg := range messages` of `processMailbox`; an error of the
body returns from the function. -/
def messageLoop (cfg : configuration) (sess : Session) (mbox : mailbox) (currentDate : Time) :
    List Message → State → State × Option Error
  | [], s => (s, none)
  | msg :: rest, s =>
    match processMessage cfg sess mbox currentDate s msg with
    | (s1, some err) => (s1, some err)
    | (s1, none) => messageLoop cfg sess mbox currentDate rest s1

/-- The function `processMailbox`. -/
def processMailbox (cfg : configuration) (sess : Session) (mbox : mailbox) (s : State) :
    State × Option Error :=
  match send sess s (.select mbox.Name) with
  | (s1, some err) => (s1, some err)
  | (s1, none) =>
    match sess.parseSeqSet "1:*" with
    | some err => (s1, some err)
    | none =>
      let messages := sess.envelopes s1.log
      match send sess s1 .uidFetch with
      | (s2, some err) => (s2, some err)
      | (s2, none) =>
        let currentDate := sess.now s2.log
        match messageLoop cfg sess mbox currentDate messages s2 with
        | (s3, some err) => (s3, some err)
        | (s3, none) => ({ s3 with cntMbox := s3.cntMbox + 1 }, none)

/-- The loop `for _, cM := range config.Mailboxes` of `action`: the result of
`processMailbox` is not looked at. -/
def exactLoop (cfg : configuration) (sess : Session) (m : mailbox) : List String → State → State
  | [], s => s
  | cM :: rest, s =>
    if m.Name = cM then exactLoop cfg sess m rest (processMailbox cfg sess m s).1
    else exactLoop cfg sess m rest s

/-- The loop `for _, rM := range config.RecursiveMailboxes` of `action`: an error of
`processMailbox` returns from `action`. -/
def recursiveLoop (cfg : configuration) (sess : Session) (m : mailbox) :
    List String → State → State × Option Error
  | [], s => (s, none)
  | rM :: rest, s =>
    if strings.HasPrefix m.Name rM then
      match processMailbox cfg sess m s with
      | (s1, some err) => (s1, some err)
      | (s1, none) => recursiveLoop cfg sess m rest s1
    else recursiveLoop cfg sess m rest s

/-- The loop labelled `mboxLoop` of `action`, over the catalog entries still to
visit. The `range` expression is evaluated once, so entries appended to the
catalog while the loop runs are not visited. -/
def mboxLoop (cfg : configuration) (sess : Session) : List mailbox → State → State × Option Error
  | [], s => (s, none)
  | m :: ms, s =>
    if cfg.IgnoreMailboxes.any (fun iM => strings.HasPrefix m.Name iM) then
      mboxLoop cfg sess ms s
    else
      match recursiveLoop cfg sess m cfg.RecursiveMailboxes
          (exactLoop cfg sess m cfg.Mailboxes s) with
      | (s1, some err) => (s1, some err)
      | (s1, none) => mboxLoop cfg sess ms s1

/-- The function `action` from the label `mboxLoop` on (lines 193-229), started
with the catalog `getMailboxes` has stored: the selector loop, then `Logout` and
the result `nil`. -/
def action (cfg : configuration) (sess : Session) (s : State) : State × Option Error :=
  match mboxLoop cfg sess s.mailboxes s with
  | (s1, some err) => (s1, some err)
  | (s1, none) => ((send sess s1 .logout).1, none)

/-! ## Auxiliary definitions used in the statements -/

/-- The number of `SELECT x` commands sent so far. `processMailbox` is the only
function that sends `SELECT`, and it sends it first, so this is the number of
calls of `processMailbox` on a mailbox named `x`. -/
def selectCount (x : String) (s : State) : Nat :=
  s.log.count (Command.select x)

/-- Whether the loop body of `processMailbox` moves the message: it has a target
and the target is not the mailbox being processed. -/
def needsMove (cfg : configuration) (mbox : mailbox) (currentDate : Time) (msg : Message) :
    Bool :=
  match mboxTargetName cfg mbox currentDate msg with
  | some name => decide (mbox.Name ≠ name)
  | none => false

/-- The configuration with dry-run switched off. -/
def configuration.wet (cfg : configuration) : configuration :=
  { cfg with Dry := false }

/-- The session in which every command succeeds, all else being equal. -/
def Session.allSucceed (sess : Session) : Session :=
  { sess with respond := fun _ _ => none }

/-- The part of the state a command leaves alone: catalog and counters. -/
def books (s : State) : List mailbox × Nat × Nat :=
  (s.mailboxes, s.cntMbox, s.cntMsg)

/-- The names of the `CREATE` commands in a log, oldest first. -/
def createdNames (log : List Command) : List String :=
  log.filterMap (fun c => match c with
    | .create n => some n
    | _ => none)

/-- The characters that can start (or, for `9`, continue) a layout element of
`time.Format`. -/
def layoutChars : List Char :=
  ['J', 'M', '0', '1', '2', '3', '4', '5', '9', '_', 'P', 'p', '-', 'Z']

/-- A delimiter none of whose characters is a layout character; `/` and `.` are. -/
def plainDelimiter (d : String) : Prop :=
  ∀ c ∈ d.data, c ∉ layoutChars

instance (d : String) : Decidable (plainDelimiter d) := by
  unfold plainDelimiter; infer_instance

/-! ## Concrete inputs used in the examples -/

/-- The local time 2023-11-05 10:00:00 UTC (a Sunday, day 309 of the year). -/
def date20231105 : Time :=
  { isZero := false, year := 2023, month := 11, day := 5, yday := 309, weekday := 0,
    hour := 10, minute := 0, second := 0, nanosecond := 0, zoneName := "UTC", zoneOffset := 0 }

/-- The local time 2024-03-02 10:00:00 UTC (a Saturday). -/
def date20240302 : Time :=
  { isZero := false, year := 2024, month := 3, day := 2, yday := 62, weekday := 6,
    hour := 10, minute := 0, second := 0, nanosecond := 0, zoneName := "UTC", zoneOffset := 0 }

/-- The local time 2024-03-15 12:00:00 UTC (a Friday), the moment of the example runs. -/
def date20240315 : Time :=
  { isZero := false, year := 2024, month := 3, day := 15, yday := 75, weekday := 5,
    hour := 12, minute := 0, second := 0, nanosecond := 0, zoneName := "UTC", zoneOffset := 0 }

/-- The zero instant `time.Time{}` seen in UTC. -/
def dateZero : Time :=
  { isZero := true, year := 1, month := 1, day := 1, yday := 1, weekday := 1,
    hour := 0, minute := 0, second := 0, nanosecond := 0, zoneName := "UTC", zoneOffset := 0 }

/-- A session in which every command succeeds, `UID FETCH` streams `msgs`, the
server has (or has not) the MOVE capability, and the run takes place on 2024-03-15. -/
def okSession (supportMove : Bool) (msgs : List Message) : Session :=
  { supportMove := supportMove
    respond := fun _ _ => none
    envelopes := fun _ => msgs
    parseSeqSet := fun _ => none
    now := fun _ => date20240315 }

/-- The session `okSession` except that the server answers the command `bad` with
the error `NO`. -/
def failingSession (supportMove : Bool) (msgs : List Message) (bad : Command) : Session :=
  { okSession supportMove msgs with
    respond := fun _ c => if c = bad then some "NO" else none }

/-- A configuration with archive root `Archive` and the given selector lists. -/
def exampleConfig (dry skip : Bool) (exact recursive ignore : List String) : configuration :=
  { Dry := dry, SkipCurrent := skip, Archive := "Archive", Mailboxes := exact,
    RecursiveMailboxes := recursive, IgnoreMailboxes := ignore }

/-- The state at the start of a run whose catalog has the given names, all with
delimiter `/`. -/
def startState (names : List String) : State :=
  { mailboxes := names.map (fun n => ⟨n, "/"⟩), cntMbox := 0, cntMsg := 0, log := [] }

/-! ## How often a mailbox is selected -/

theorem selectCount_send (x : String) (sess : Session) (s : State) (c : Command)
    (hc : c ≠ Command.select x) : selectCount x (send sess s c).1 = selectCount x s := by
  simp [selectCount, send, List.count_append, List.count_cons, hc]

theorem selectCount_Move (x : String) (sess : Session) (s : State) (uid : Nat)
    (target : String) : selectCount x (imapClient.Move sess s uid target).1 = selectCount x s := by
  unfold imapClient.Move
  have e1 := selectCount_send x sess s (.uidMove uid target) (by simp)
  have e2 := selectCount_send x sess s (.uidCopy uid target) (by simp)
  split
  · split <;> rename_i h <;> rw [h] at e1 <;> exact e1
  · split
    · rename_i h; rw [h] at e2; exact e2
    · rename_i s1 h
      rw [h] at e2
      have e3 := selectCount_send x sess s1 (.uidStore uid) (by simp)
      split
      · rename_i h2; rw [h2] at e3; exact e3.trans e2
      · rename_i s2 h2
        rw [h2] at e3
        have e4 := selectCount_send x sess s2 .expunge (by simp)
        split <;> rename_i h3 <;> rw [h3] at e4 <;> exact e4.trans (e3.trans e2)

theorem selectCount_moveMessage (x : String) (cfg : configuration) (sess : Session) (s : State)
    (uid : Nat) (mbox : mailbox) :
    selectCount x (moveMessage cfg sess s uid mbox).1 = selectCount x s := by
  unfold moveMessage
  split
  · rfl
  · split
    · exact selectCount_Move x sess s uid mbox.Name
    · rfl

theorem selectCount_ensureLoop (x : String) (cfg : configuration) (sess : Session)
    (mbox : mailbox) (parts : List String) (idx : List Nat) :
    ∀ s : State, selectCount x (ensureLoop cfg sess mbox parts idx s).1 = selectCount x s := by
  induction idx with
  | nil => intro s; rfl
  | cons pI rest ih =>
    intro s
    unfold ensureLoop
    simp only []
    split
    · split
      · have e := selectCount_send x sess s (.create (targetAt parts mbox.Delimiter pI)) (by simp)
        split
        · rename_i h; rw [h] at e; exact e
        · rename_i s1 h
          rw [h] at e
          rw [ih]
          exact e
      · rw [ih]; rfl
    · exact ih s

theorem selectCount_processMessage (x : String) (cfg : configuration) (sess : Session)
    (mbox : mailbox) (currentDate : Time) (s : State) (msg : Message) :
    selectCount x (processMessage cfg sess mbox currentDate s msg).1 = selectCount x s := by
  unfold processMessage
  split
  · rfl
  · rename_i name _
    simp only []
    split
    · have e1 := selectCount_ensureLoop x cfg sess ⟨name, mbox.Delimiter⟩
        (strings.Split name mbox.Delimiter)
        (List.range (strings.Split name mbox.Delimiter).length) s
      change selectCount x (mailbox.ensureAvailable cfg sess ⟨name, mbox.Delimiter⟩ s).1 = _ at e1
      split
      · rename_i h; rw [h] at e1; exact e1
      · rename_i s1 h
        rw [h] at e1
        have e2 := selectCount_moveMessage x cfg sess s1 msg.Uid ⟨name, mbox.Delimiter⟩
        split
        · rename_i h2; rw [h2] at e2; exact e2.trans e1
        · rename_i s2 h2
          rw [h2] at e2
          exact e2.trans e1
    · rfl

theorem selectCount_messageLoop (x : String) (cfg : configuration) (sess : Session)
    (mbox : mailbox) (currentDate : Time) (msgs : List Message) :
    ∀ s : State,
      selectCount x (messageLoop cfg sess mbox currentDate msgs s).1 = selectCount x s := by
  induction msgs with
  | nil => intro s; rfl
  | cons msg rest ih =>
    intro s
    unfold messageLoop
    have e := selectCount_processMessage x cfg sess mbox currentDate s msg
    split
    · rename_i h; rw [h] at e; exact e
    · rename_i s1 h
      rw [h] at e
      rw [ih]; exact e

/-- A call of `processMailbox` on a mailbox with another name sends no `SELECT x`. -/
theorem selectCount_processMailbox (x : String) (cfg : configuration) (sess : Session)
    (mbox : mailbox) (s : State) (hx : mbox.Name ≠ x) :
    selectCount x (processMailbox cfg sess mbox s).1 = selectCount x s := by
  unfold processMailbox
  have e1 := selectCount_send x sess s (.select mbox.Name) (by simp [hx])
  split
  · rename_i h; rw [h] at e1; exact e1
  · rename_i s1 h
    rw [h] at e1
    split
    · exact e1
    · simp only []
      have e2 := selectCount_send x sess s1 .uidFetch (by simp)
      split
      · rename_i h2; rw [h2] at e2; exact e2.trans e1
      · rename_i s2 h2
        rw [h2] at e2
        have e3 := selectCount_messageLoop x cfg sess mbox (sess.now s2.log)
          (sess.envelopes s1.log) s2
        split
        · rename_i h3; rw [h3] at e3; exact e3.trans (e2.trans e1)
        · rename_i s3 h3
          rw [h3] at e3
          exact e3.trans (e2.trans e1)

theorem selectCount_exactLoop (x : String) (cfg : configuration) (sess : Session)
    (m : mailbox) (hx : m.Name ≠ x) (entries : List String) :
    ∀ s : State, selectCount x (exactLoop cfg sess m entries s) = selectCount x s := by
  induction entries with
  | nil => intro s; rfl
  | cons cM rest ih =>
    intro s
    unfold exactLoop
    split
    · rw [ih]; exact selectCount_processMailbox x cfg sess m s hx
    · exact ih s

theorem selectCount_recursiveLoop (x : String) (cfg : configuration) (sess : Session)
    (m : mailbox) (hx : m.Name ≠ x) (entries : List String) :
    ∀ s : State, selectCount x (recursiveLoop cfg sess m entries s).1 = selectCount x s := by
  induction entries with
  | nil => intro s; rfl
  | cons rM rest ih =>
    intro s
    unfold recursiveLoop
    split
    · have e := selectCount_processMailbox x cfg sess m s hx
      split
      · rename_i h; rw [h] at e; exact e
      · rename_i s1 h
        rw [h] at e
        rw [ih]; exact e
    · exact ih s

/-- The selector loop sends no `SELECT x` when `x` starts with an ignore-prefix. -/
theorem selectCount_mboxLoop (x : String) (cfg : configuration) (sess : Session)
    (hx : cfg.IgnoreMailboxes.any (fun iM => strings.HasPrefix x iM) = true)
    (ms : List mailbox) :
    ∀ s : State, selectCount x (mboxLoop cfg sess ms s).1 = selectCount x s := by
  induction ms with
  | nil => intro s; rfl
  | cons m rest ih =>
    intro s
    unfold mboxLoop
    split
    · exact ih s
    · rename_i hm
      have hne : m.Name ≠ x := by
        intro h
        rw [h] at hm
        exact hm hx
      have e := selectCount_recursiveLoop x cfg sess m hne cfg.RecursiveMailboxes
        (exactLoop cfg sess m cfg.Mailboxes s)
      rw [selectCount_exactLoop x cfg sess m hne] at e
      split
      · rename_i h; rw [h] at e; exact e
      · rename_i s1 h
        rw [h] at e
        rw [ih]; exact e

/-! ## What `ensureAvailable` leaves behind -/

theorem catalogHas_append (mbs : List mailbox) (m : mailbox) (t : String) :
    catalogHas (mbs ++ [m]) t = (catalogHas mbs t || (m.Name == t)) := by
  simp [catalogHas, List.any_append]

/-- When every cumulative path is already in the catalog, the loop sends nothing
and changes nothing, whatever the session and the dry-run flag are. -/
theorem ensureLoop_noop (cfg : configuration) (sess : Session) (mbox : mailbox)
    (parts : List String) (idx : List Nat) (s : State)
    (h : ∀ pI ∈ idx, catalogHas s.mailboxes (targetAt parts mbox.Delimiter pI) = true) :
    ensureLoop cfg sess mbox parts idx s = (s, none) := by
  induction idx with
  | nil => rfl
  | cons pI rest ih =>
    unfold ensureLoop
    have h1 := h pI (List.mem_cons_self _ _)
    simp only [h1, Bool.not_true, Bool.false_eq_true, if_false]
    exact ih (fun q hq => h q (List.mem_cons_of_mem _ hq))

/-- A successful run of the loop: the catalog only grows, it ends up holding every
cumulative path visited, and the commands sent are `CREATE`s of pairwise
different names, none of which was in the catalog before and all of which are in
it afterwards. -/
theorem ensureLoop_spec (cfg : configuration) (sess : Session) (mbox : mailbox)
    (parts : List String) (idx : List Nat) :
    ∀ s s1 : State, ensureLoop cfg sess mbox parts idx s = (s1, none) →
      (∀ t, catalogHas s.mailboxes t = true → catalogHas s1.mailboxes t = true) ∧
      (∀ pI ∈ idx, catalogHas s1.mailboxes (targetAt parts mbox.Delimiter pI) = true) ∧
      ∃ created : List String,
        s1.log = s.log ++ created.map Command.create ∧ created.Nodup ∧
        ∀ t ∈ created, catalogHas s.mailboxes t = false ∧ catalogHas s1.mailboxes t = true := by
  induction idx with
  | nil =>
    intro s s1 h
    simp only [ensureLoop, Prod.mk.injEq, and_true] at h
    subst h
    exact ⟨fun _ ht => ht, fun _ hp => by simp at hp, [], by simp, List.nodup_nil, by simp⟩
  | cons pI rest ih =>
    intro s s1 h
    unfold ensureLoop at h
    dsimp only at h
    split at h
    · rename_i habsent
      have habs : catalogHas s.mailboxes (targetAt parts mbox.Delimiter pI) = false := by
        simpa using habsent
      split at h
      · -- a remote create
        simp only [send] at h
        split at h
        · simp at h
        · rename_i s0 heq
          simp only [Prod.mk.injEq] at heq
          obtain ⟨hs0, _⟩ := heq
          subst hs0
          obtain ⟨hmono, hall, created, hlog, hnd, hcr⟩ := ih _ _ h
          dsimp only at hmono hlog hcr
          have hin : catalogHas s1.mailboxes (targetAt parts mbox.Delimiter pI) = true :=
            hmono _ (by simp [catalogHas_append])
          refine ⟨fun t ht => hmono t (by simp [catalogHas_append, ht]), ?_, ?_⟩
          · intro q hq
            rcases List.mem_cons.mp hq with rfl | hq
            · exact hin
            · exact hall q hq
          · refine ⟨targetAt parts mbox.Delimiter pI :: created, ?_, ?_, ?_⟩
            · simp [hlog]
            · refine List.nodup_cons.mpr ⟨fun hmem => ?_, hnd⟩
              have := (hcr _ hmem).1
              simp [catalogHas_append] at this
            · intro t ht
              rcases List.mem_cons.mp ht with rfl | ht
              · exact ⟨habs, hin⟩
              · have := hcr t ht
                simp only [catalogHas_append, Bool.or_eq_false_iff] at this
                exact ⟨this.1.1, this.2⟩
      · -- dry run: recorded without a command
        obtain ⟨hmono, hall, created, hlog, hnd, hcr⟩ := ih _ _ h
        dsimp only at hmono hlog hcr
        have hin : catalogHas s1.mailboxes (targetAt parts mbox.Delimiter pI) = true :=
          hmono _ (by simp [catalogHas_append])
        refine ⟨fun t ht => hmono t (by simp [catalogHas_append, ht]), ?_, created, hlog, hnd, ?_⟩
        · intro q hq
          rcases List.mem_cons.mp hq with rfl | hq
          · exact hin
          · exact hall q hq
        · intro t ht
          have := hcr t ht
          simp only [catalogHas_append, Bool.or_eq_false_iff] at this
          exact ⟨this.1.1, this.2⟩
    · rename_i hpresent
      have hin0 : catalogHas s.mailboxes (targetAt parts mbox.Delimiter pI) = true := by
        simpa using hpresent
      obtain ⟨hmono, hall, created, hlog, hnd, hcr⟩ := ih _ _ h
      refine ⟨hmono, ?_, created, hlog, hnd, hcr⟩
      intro q hq
      rcases List.mem_cons.mp hq with rfl | hq
      · exact hmono _ hin0
      · exact hall q hq

/-! ## Dry run against a run in which every command succeeds -/

theorem books_send (sess : Session) (s : State) (c : Command) :
    books (send sess s c).1 = books s := rfl

theorem books_Move (sess : Session) (s : State) (uid : Nat) (target : String) :
    books (imapClient.Move sess s uid target).1 = books s := by
  unfold imapClient.Move
  have e1 := books_send sess s (.uidMove uid target)
  have e2 := books_send sess s (.uidCopy uid target)
  split
  · split <;> rename_i h <;> rw [h] at e1 <;> exact e1
  · split
    · rename_i h; rw [h] at e2; exact e2
    · rename_i s1 h
      rw [h] at e2
      have e3 := books_send sess s1 (.uidStore uid)
      split
      · rename_i h2; rw [h2] at e3; exact e3.trans e2
      · rename_i s2 h2
        rw [h2] at e3
        have e4 := books_send sess s2 .expunge
        split <;> rename_i h3 <;> rw [h3] at e4 <;> exact e4.trans (e3.trans e2)

theorem ensureLoop_dry_sim (cfg : configuration) (sess : Session) (mbox : mailbox)
    (parts : List String) (hdry : cfg.Dry = true) (idx : List Nat) :
    ∀ s s2 : State, books s = books s2 →
      ensureLoop cfg sess mbox parts idx s
        = ({ s with mailboxes := (ensureLoop cfg sess mbox parts idx s).1.mailboxes }, none) ∧
      (ensureLoop cfg.wet sess.allSucceed mbox parts idx s2).2 = none ∧
      books (ensureLoop cfg.wet sess.allSucceed mbox parts idx s2).1
        = books (ensureLoop cfg sess mbox parts idx s).1 := by
  induction idx with
  | nil =>
    intro s s2 h
    exact ⟨rfl, rfl, h.symm⟩
  | cons pI rest ih =>
    intro s s2 h
    have hmb : s2.mailboxes = s.mailboxes := by
      have := congrArg Prod.fst h; exact this.symm
    unfold ensureLoop
    dsimp only
    rw [hmb]
    by_cases hc : catalogHas s.mailboxes (targetAt parts mbox.Delimiter pI) = true
    · simp only [hc, Bool.not_true, Bool.false_eq_true, if_false]
      exact ih s s2 h
    · simp only [hc, Bool.not_false, if_true, hdry, configuration.wet, Session.allSucceed,
        send, Bool.not_true, Bool.false_eq_true, if_false, Bool.not_eq_true]
      have hb : books { s with mailboxes := s.mailboxes ++
            [⟨targetAt parts mbox.Delimiter pI, mbox.Delimiter⟩] }
          = books { s2 with
            mailboxes := s2.mailboxes ++ [⟨targetAt parts mbox.Delimiter pI, mbox.Delimiter⟩]
            log := s2.log ++ [Command.create (targetAt parts mbox.Delimiter pI)] } := by
        simp only [books, Prod.mk.injEq] at h ⊢
        simp [h.1, h.2.1, h.2.2]
      have := ih _ _ hb
      refine ⟨?_, this.2.1, this.2.2⟩
      rw [this.1]

theorem ensureAvailable_dry_sim (cfg : configuration) (sess : Session) (mbox : mailbox)
    (hdry : cfg.Dry = true) (s s2 : State) (hb : books s = books s2) :
    (mbox.ensureAvailable cfg sess s).2 = none ∧
    (mbox.ensureAvailable cfg sess s).1.log = s.log ∧
    (mbox.ensureAvailable cfg sess s).1.cntMbox = s.cntMbox ∧
    (mbox.ensureAvailable cfg sess s).1.cntMsg = s.cntMsg ∧
    (mbox.ensureAvailable cfg.wet sess.allSucceed s2).2 = none ∧
    books (mbox.ensureAvailable cfg.wet sess.allSucceed s2).1
      = books (mbox.ensureAvailable cfg sess s).1 := by
  unfold mailbox.ensureAvailable
  obtain ⟨h1, h2, h3⟩ := ensureLoop_dry_sim cfg sess mbox
    (strings.Split mbox.Name mbox.Delimiter) hdry
    (List.range (strings.Split mbox.Name mbox.Delimiter).length) s s2 hb
  refine ⟨?_, ?_, ?_, ?_, h2, h3⟩ <;> rw [h1]

theorem moveMessage_dry (cfg : configuration) (sess : Session) (s : State) (uid : Nat)
    (mbox : mailbox) (hdry : cfg.Dry = true)
    (hparse : sess.parseSeqSet (toString uid) = none) :
    moveMessage cfg sess s uid mbox = (s, none) := by
  simp [moveMessage, hparse, hdry]

theorem moveMessage_wet (cfg : configuration) (sess : Session) (s : State) (uid : Nat)
    (mbox : mailbox) (hparse : sess.parseSeqSet (toString uid) = none) :
    (moveMessage cfg.wet sess.allSucceed s uid mbox).2 = none ∧
    books (moveMessage cfg.wet sess.allSucceed s uid mbox).1 = books s := by
  have hp : sess.allSucceed.parseSeqSet (toString uid) = none := hparse
  have hw : cfg.wet.Dry = false := rfl
  unfold moveMessage
  rw [hp]
  simp only [hw, Bool.not_false, if_true]
  exact ⟨trivial, books_Move _ _ _ _⟩

theorem processMessage_dry_sim (cfg : configuration) (sess : Session) (mbox : mailbox)
    (currentDate : Time) (msg : Message) (hdry : cfg.Dry = true)
    (hparse : sess.parseSeqSet (toString msg.Uid) = none)
    (s s2 : State) (hb : books s = books s2) :
    (processMessage cfg sess mbox currentDate s msg).2 = none ∧
    (processMessage cfg sess mbox currentDate s msg).1.log = s.log ∧
    (processMessage cfg sess mbox currentDate s msg).1.cntMbox = s.cntMbox ∧
    (processMessage cfg sess mbox currentDate s msg).1.cntMsg
      = s.cntMsg + (if needsMove cfg mbox currentDate msg then 1 else 0) ∧
    (processMessage cfg.wet sess.allSucceed mbox currentDate s2 msg).2 = none ∧
    books (processMessage cfg.wet sess.allSucceed mbox currentDate s2 msg).1
      = books (processMessage cfg sess mbox currentDate s msg).1 := by
  have ht : mboxTargetName cfg.wet mbox currentDate msg
      = mboxTargetName cfg mbox currentDate msg := rfl
  unfold processMessage needsMove
  rw [ht]
  cases mboxTargetName cfg mbox currentDate msg with
  | none => simp [hb]
  | some name =>
    dsimp only
    by_cases hne : mbox.Name = name
    · simp [hne, hb]
    · simp only [ne_eq, hne, not_false_eq_true, if_true, decide_True]
      obtain ⟨h1, h2, h3, h4, h5, h6⟩ :=
        ensureAvailable_dry_sim cfg sess ⟨name, mbox.Delimiter⟩ hdry s s2 hb
      generalize mailbox.ensureAvailable cfg sess ⟨name, mbox.Delimiter⟩ s = rA at h1 h2 h3 h4 h6 ⊢
      generalize mailbox.ensureAvailable cfg.wet sess.allSucceed ⟨name, mbox.Delimiter⟩ s2 = rB
        at h5 h6 ⊢
      obtain ⟨sA, eA⟩ := rA
      obtain ⟨sB, eB⟩ := rB
      dsimp only at h1 h2 h3 h4 h5 h6
      subst h1 h5
      dsimp only
      rw [moveMessage_dry cfg sess sA msg.Uid ⟨name, mbox.Delimiter⟩ hdry hparse]
      obtain ⟨m1, m2⟩ := moveMessage_wet cfg sess sB msg.Uid ⟨name, mbox.Delimiter⟩ hparse
      generalize moveMessage cfg.wet sess.allSucceed sB msg.Uid ⟨name, mbox.Delimiter⟩ = rC
        at m1 m2 ⊢
      obtain ⟨sC, eC⟩ := rC
      dsimp only at m1 m2
      subst m1
      dsimp only
      refine ⟨rfl, h2, h3, by rw [h4], rfl, ?_⟩
      have := m2.trans h6
      simp only [books, Prod.mk.injEq] at this ⊢
      simp [this.1, this.2.1, this.2.2]

theorem messageLoop_dry_sim (cfg : configuration) (sess : Session) (mbox : mailbox)
    (currentDate : Time) (hdry : cfg.Dry = true) (msgs : List Message) :
    ∀ s s2 : State, books s = books s2 →
      (∀ msg ∈ msgs, sess.parseSeqSet (toString msg.Uid) = none) →
      (messageLoop cfg sess mbox currentDate msgs s).2 = none ∧
      (messageLoop cfg sess mbox currentDate msgs s).1.log = s.log ∧
      (messageLoop cfg sess mbox currentDate msgs s).1.cntMbox = s.cntMbox ∧
      (messageLoop cfg sess mbox currentDate msgs s).1.cntMsg
        = s.cntMsg + msgs.countP (needsMove cfg mbox currentDate) ∧
      (messageLoop cfg.wet sess.allSucceed mbox currentDate msgs s2).2 = none ∧
      books (messageLoop cfg.wet sess.allSucceed mbox currentDate msgs s2).1
        = books (messageLoop cfg sess mbox currentDate msgs s).1 := by
  induction msgs with
  | nil =>
    intro s s2 hb _
    exact ⟨rfl, rfl, rfl, by simp [messageLoop], rfl, hb.symm⟩
  | cons msg rest ih =>
    intro s s2 hb hparse
    obtain ⟨h1, h2, h3, h4, h5, h6⟩ := processMessage_dry_sim cfg sess mbox currentDate msg hdry
      (hparse msg (List.mem_cons_self _ _)) s s2 hb
    unfold messageLoop
    generalize processMessage cfg sess mbox currentDate s msg = rA at h1 h2 h3 h4 h6 ⊢
    generalize processMessage cfg.wet sess.allSucceed mbox currentDate s2 msg = rB at h5 h6 ⊢
    obtain ⟨sA, eA⟩ := rA
    obtain ⟨sB, eB⟩ := rB
    dsimp only at h1 h2 h3 h4 h5 h6
    subst h1 h5
    dsimp only
    obtain ⟨i1, i2, i3, i4, i5, i6⟩ :=
      ih sA sB h6.symm (fun m hm => hparse m (List.mem_cons_of_mem _ hm))
    refine ⟨i1, i2.trans h2, i3.trans h3, ?_, i5, i6⟩
    rw [i4, h4, List.countP_cons]
    omega


/-! ## The folders a run records -/

theorem createdNames_append (l1 l2 : List Command) :
    createdNames (l1 ++ l2) = createdNames l1 ++ createdNames l2 := by
  simp [createdNames, List.filterMap_append]

theorem createdNames_send (sess : Session) (s : State) (c : Command)
    (hc : ∀ n, c ≠ Command.create n) :
    createdNames (send sess s c).1.log = createdNames s.log := by
  cases c <;> simp_all [send, createdNames, List.filterMap_append]

theorem createdNames_Move (sess : Session) (s : State) (uid : Nat) (target : String) :
    createdNames (imapClient.Move sess s uid target).1.log = createdNames s.log := by
  unfold imapClient.Move
  have e1 := createdNames_send sess s (.uidMove uid target) (by simp)
  have e2 := createdNames_send sess s (.uidCopy uid target) (by simp)
  split
  · split <;> rename_i h <;> rw [h] at e1 <;> exact e1
  · split
    · rename_i h; rw [h] at e2; exact e2
    · rename_i s1 h
      rw [h] at e2
      have e3 := createdNames_send sess s1 (.uidStore uid) (by simp)
      split
      · rename_i h2; rw [h2] at e3; exact e3.trans e2
      · rename_i s2 h2
        rw [h2] at e3
        have e4 := createdNames_send sess s2 .expunge (by simp)
        split <;> rename_i h3 <;> rw [h3] at e4 <;> exact e4.trans (e3.trans e2)

/-- With dry-run off and a server that accepts every command, the loop of
`ensureAvailable` appends to the catalog exactly the folders it creates remotely,
in the order of creation. -/
theorem ensureLoop_wet_creates (cfg : configuration) (sess : Session) (mbox : mailbox)
    (parts : List String) (hwet : cfg.Dry = false) (hok : ∀ l c, sess.respond l c = none)
    (idx : List Nat) :
    ∀ s : State, ∃ added : List String,
      (ensureLoop cfg sess mbox parts idx s).1.mailboxes
        = s.mailboxes ++ added.map (fun t => (⟨t, mbox.Delimiter⟩ : mailbox)) ∧
      createdNames (ensureLoop cfg sess mbox parts idx s).1.log
        = createdNames s.log ++ added := by
  induction idx with
  | nil => intro s; exact ⟨[], by simp [ensureLoop], by simp [ensureLoop]⟩
  | cons pI rest ih =>
    intro s
    unfold ensureLoop
    dsimp only
    by_cases hc : catalogHas s.mailboxes (targetAt parts mbox.Delimiter pI) = true
    · simp only [hc, Bool.not_true, Bool.false_eq_true, if_false]
      exact ih s
    · simp only [hc, Bool.not_false, if_true, hwet, send, hok]
      obtain ⟨added, h1, h2⟩ := ih
        { s with
          mailboxes := s.mailboxes ++ [⟨targetAt parts mbox.Delimiter pI, mbox.Delimiter⟩]
          log := s.log ++ [Command.create (targetAt parts mbox.Delimiter pI)] }
      refine ⟨targetAt parts mbox.Delimiter pI :: added, ?_, ?_⟩
      · rw [h1]; simp
      · rw [h2]; simp [createdNames_append, createdNames]

theorem processMessage_wet_creates (cfg : configuration) (sess : Session) (mbox : mailbox)
    (currentDate : Time) (msg : Message) (hwet : cfg.Dry = false)
    (hok : ∀ l c, sess.respond l c = none) (s : State) :
    ∃ added : List String,
      (processMessage cfg sess mbox currentDate s msg).1.mailboxes
        = s.mailboxes ++ added.map (fun t => (⟨t, mbox.Delimiter⟩ : mailbox)) ∧
      createdNames (processMessage cfg sess mbox currentDate s msg).1.log
        = createdNames s.log ++ added := by
  unfold processMessage
  cases mboxTargetName cfg mbox currentDate msg with
  | none => exact ⟨[], by simp, by simp⟩
  | some name =>
    dsimp only
    by_cases hne : mbox.Name = name
    · simp only [ne_eq, hne, not_true_eq_false, if_false]
      exact ⟨[], by simp, by simp⟩
    · simp only [ne_eq, hne, not_false_eq_true, if_true]
      obtain ⟨added, h1, h2⟩ := ensureLoop_wet_creates cfg sess ⟨name, mbox.Delimiter⟩
        (strings.Split name mbox.Delimiter) hwet hok
        (List.range (strings.Split name mbox.Delimiter).length) s
      change (mailbox.ensureAvailable cfg sess ⟨name, mbox.Delimiter⟩ s).1.mailboxes = _ at h1
      change createdNames (mailbox.ensureAvailable cfg sess ⟨name, mbox.Delimiter⟩ s).1.log
        = _ at h2
      generalize mailbox.ensureAvailable cfg sess ⟨name, mbox.Delimiter⟩ s = rA at h1 h2 ⊢
      obtain ⟨sA, eA⟩ := rA
      dsimp only at h1 h2
      cases eA with
      | some err => exact ⟨added, h1, h2⟩
      | none =>
        dsimp only
        have m1 : (moveMessage cfg sess sA msg.Uid ⟨name, mbox.Delimiter⟩).1.mailboxes
            = sA.mailboxes := by
          unfold moveMessage
          split
          · rfl
          · split
            · exact congrArg Prod.fst (books_Move sess sA msg.Uid name)
            · rfl
        have m2 : createdNames (moveMessage cfg sess sA msg.Uid ⟨name, mbox.Delimiter⟩).1.log
            = createdNames sA.log := by
          unfold moveMessage
          split
          · rfl
          · split
            · exact createdNames_Move sess sA msg.Uid name
            · rfl
        generalize moveMessage cfg sess sA msg.Uid ⟨name, mbox.Delimiter⟩ = rB at m1 m2 ⊢
        obtain ⟨sB, eB⟩ := rB
        dsimp only at m1 m2
        cases eB with
        | some err => exact ⟨added, m1.trans h1, m2.trans h2⟩
        | none => exact ⟨added, m1.trans h1, m2.trans h2⟩

theorem messageLoop_wet_creates (cfg : configuration) (sess : Session) (mbox : mailbox)
    (currentDate : Time) (hwet : cfg.Dry = false) (hok : ∀ l c, sess.respond l c = none)
    (msgs : List Message) :
    ∀ s : State, ∃ added : List String,
      (messageLoop cfg sess mbox currentDate msgs s).1.mailboxes
        = s.mailboxes ++ added.map (fun t => (⟨t, mbox.Delimiter⟩ : mailbox)) ∧
      createdNames (messageLoop cfg sess mbox currentDate msgs s).1.log
        = createdNames s.log ++ added := by
  induction msgs with
  | nil => intro s; exact ⟨[], by simp [messageLoop], by simp [messageLoop]⟩
  | cons msg rest ih =>
    intro s
    obtain ⟨a1, h1, h2⟩ := processMessage_wet_creates cfg sess mbox currentDate msg hwet hok s
    unfold messageLoop
    generalize processMessage cfg sess mbox currentDate s msg = rA at h1 h2 ⊢
    obtain ⟨sA, eA⟩ := rA
    dsimp only at h1 h2
    cases eA with
    | some err => exact ⟨a1, h1, h2⟩
    | none =>
      dsimp only
      obtain ⟨a2, i1, i2⟩ := ih sA
      refine ⟨a1 ++ a2, ?_, ?_⟩
      · rw [i1, h1]; simp
      · rw [i2, h2]; simp

/-- With dry-run off and a server that accepts every command, `processMailbox`
appends to the catalog exactly the folders it creates remotely, in that order. -/
theorem processMailbox_wet_creates (cfg : configuration) (sess : Session) (mbox : mailbox)
    (hwet : cfg.Dry = false) (hok : ∀ l c, sess.respond l c = none) (s : State) :
    ∃ added : List String,
      (processMailbox cfg sess mbox s).1.mailboxes
        = s.mailboxes ++ added.map (fun t => (⟨t, mbox.Delimiter⟩ : mailbox)) ∧
      createdNames (processMailbox cfg sess mbox s).1.log = createdNames s.log ++ added := by
  unfold processMailbox
  simp only [send, hok]
  split
  · exact ⟨[], by simp, by simp [createdNames_append, createdNames]⟩
  · obtain ⟨added, h1, h2⟩ := messageLoop_wet_creates cfg sess mbox
      (sess.now (s.log ++ [.select mbox.Name] ++ [.uidFetch])) hwet hok
      (sess.envelopes (s.log ++ [.select mbox.Name]))
      { s with log := s.log ++ [.select mbox.Name] ++ [.uidFetch] }
    have h3 : createdNames (s.log ++ [.select mbox.Name] ++ [.uidFetch]) = createdNames s.log := by
      simp [createdNames_append, createdNames]
    dsimp only at h1 h2
    rw [h3] at h2
    split
    · rename_i h; rw [h] at h1 h2; exact ⟨added, h1, h2⟩
    · rename_i h; rw [h] at h1 h2; exact ⟨added, h1, h2⟩


/-- In a dry run the loop body keeps every catalog entry and, for a message it
moves, leaves every cumulative path of the target in the catalog. -/
theorem processMessage_dry_paths (cfg : configuration) (sess : Session) (mbox : mailbox)
    (currentDate : Time) (msg : Message) (hdry : cfg.Dry = true)
    (hparse : sess.parseSeqSet (toString msg.Uid) = none) (s : State) :
    (∀ t, catalogHas s.mailboxes t = true →
      catalogHas (processMessage cfg sess mbox currentDate s msg).1.mailboxes t = true) ∧
    (∀ name, mboxTargetName cfg mbox currentDate msg = some name → mbox.Name ≠ name →
      ∀ k, k < (strings.Split name mbox.Delimiter).length →
        catalogHas (processMessage cfg sess mbox currentDate s msg).1.mailboxes
          (targetAt (strings.Split name mbox.Delimiter) mbox.Delimiter k) = true) := by
  unfold processMessage
  cases mboxTargetName cfg mbox currentDate msg with
  | none => exact ⟨fun _ h => h, fun _ h => by simp at h⟩
  | some name =>
    dsimp only
    by_cases hne : mbox.Name = name
    · simp only [ne_eq, hne, not_true_eq_false, if_false]
      refine ⟨fun _ h => h, fun n hn hne2 => ?_⟩
      simp only [Option.some.injEq] at hn
      exact absurd hn hne2
    · simp only [ne_eq, hne, not_false_eq_true, if_true]
      have hnone := (ensureAvailable_dry_sim cfg sess ⟨name, mbox.Delimiter⟩ hdry s s rfl).1
      generalize hA : mailbox.ensureAvailable cfg sess ⟨name, mbox.Delimiter⟩ s = rA at hnone ⊢
      obtain ⟨sA, eA⟩ := rA
      dsimp only at hnone
      subst hnone
      dsimp only
      rw [moveMessage_dry cfg sess sA msg.Uid ⟨name, mbox.Delimiter⟩ hdry hparse]
      dsimp only
      have hspec := ensureLoop_spec cfg sess ⟨name, mbox.Delimiter⟩ _ _ s sA hA
      refine ⟨hspec.1, fun n hn _ k hk => ?_⟩
      simp only [Option.some.injEq] at hn
      subst hn
      exact hspec.2.1 k (List.mem_range.mpr hk)

theorem messageLoop_dry_paths (cfg : configuration) (sess : Session) (mbox : mailbox)
    (currentDate : Time) (hdry : cfg.Dry = true) (msgs : List Message) :
    ∀ s : State, (∀ msg ∈ msgs, sess.parseSeqSet (toString msg.Uid) = none) →
      (∀ t, catalogHas s.mailboxes t = true →
        catalogHas (messageLoop cfg sess mbox currentDate msgs s).1.mailboxes t = true) ∧
      (∀ msg ∈ msgs, ∀ name, mboxTargetName cfg mbox currentDate msg = some name →
        mbox.Name ≠ name → ∀ k, k < (strings.Split name mbox.Delimiter).length →
          catalogHas (messageLoop cfg sess mbox currentDate msgs s).1.mailboxes
            (targetAt (strings.Split name mbox.Delimiter) mbox.Delimiter k) = true) := by
  induction msgs with
  | nil => intro s _; exact ⟨fun _ h => h, fun _ h => by simp at h⟩
  | cons msg rest ih =>
    intro s hparse
    have hp := hparse msg (List.mem_cons_self _ _)
    obtain ⟨p1, p2⟩ := processMessage_dry_paths cfg sess mbox currentDate msg hdry hp s
    have hnone := (processMessage_dry_sim cfg sess mbox currentDate msg hdry hp s s rfl).1
    unfold messageLoop
    generalize processMessage cfg sess mbox currentDate s msg = rA at p1 p2 hnone ⊢
    obtain ⟨sA, eA⟩ := rA
    dsimp only at p1 p2 hnone
    subst hnone
    dsimp only
    obtain ⟨i1, i2⟩ := ih sA (fun m hm => hparse m (List.mem_cons_of_mem _ hm))
    refine ⟨fun t ht => i1 t (p1 t ht), fun m hm name hn hne k hk => ?_⟩
    rcases List.mem_cons.mp hm with rfl | hm
    · exact i1 _ (p2 name hn hne k hk)
    · exact i2 m hm name hn hne k hk

/-! ## `Format` on the layout `2006` + delimiter + `01` -/

theorem stdAt_plain (c : Char) (rest : List Char) (hc : c ∉ layoutChars)
    (hrest : rest = ['0', '1'] ∨ ∃ c2 r, rest = c2 :: r ∧ c2 ≠ '0' ∧ c2 ≠ '9') :
    time.stdAt (c :: rest) = none := by
  simp only [layoutChars, List.mem_cons, List.mem_singleton, not_or, List.not_mem_nil,
    or_false] at hc
  obtain ⟨h1, h2, h3, h4, h5, h6, h7, h8, h9, h10, h11, h12, h13, h14⟩ := hc
  unfold time.stdAt
  simp only [h1, h2, h3, h4, h5, h6, h7, h8, h10, h11, h12, h13, h14, if_false]
  split
  · rcases hrest with rfl | ⟨c2, r, rfl, hc0, hc9⟩
    · simp [time.isDigit]
    · simp [hc0, hc9]
  · rfl

theorem nextStdChunk_plain (dl : List Char) (hd : ∀ c ∈ dl, c ∉ layoutChars) :
    ∀ pre : List Char,
      time.nextStdChunk pre (dl ++ ['0', '1']) = (pre ++ dl, some .stdZeroMonth, []) := by
  induction dl with
  | nil =>
    intro pre
    simp [time.nextStdChunk, time.stdAt, time.at_]
  | cons c rest ih =>
    intro pre
    have hc := hd c (List.mem_cons_self _ _)
    have hrest : ∀ x ∈ rest, x ∉ layoutChars := fun x hx => hd x (List.mem_cons_of_mem _ hx)
    have hnone : time.stdAt (c :: (rest ++ ['0', '1'])) = none := by
      apply stdAt_plain c _ hc
      cases rest with
      | nil => exact Or.inl rfl
      | cons c2 r =>
        refine Or.inr ⟨c2, r ++ ['0', '1'], rfl, ?_, ?_⟩
        · intro h
          exact hrest c2 (List.mem_cons_self _ _) (by simp [layoutChars, h])
        · intro h
          exact hrest c2 (List.mem_cons_self _ _) (by simp [layoutChars, h])
    rw [List.cons_append, time.nextStdChunk, hnone]
    dsimp only
    rw [ih hrest]
    simp

/-- For a delimiter without layout characters, `Format` renders the layout
`2006` + delimiter + `01` as the year (at least four digits), the delimiter and
the two-digit month. -/
theorem Format_plain (t : Time) (d : String) (hd : plainDelimiter d) :
    t.Format ("2006" ++ d ++ "01")
      = String.mk (time.appendInt t.year 4) ++ d ++ String.mk (time.appendInt t.month 2) := by
  have hdata : ("2006" ++ d ++ "01").data = '2' :: '0' :: '0' :: '6' :: (d.data ++ ['0', '1']) := by
    simp [String.data_append]
  have hlen : ("2006" ++ d ++ "01").data.length = (d.data.length + 4) + 1 + 1 := by
    rw [hdata]; simp
  have hyear : ∀ l : List Char, time.nextStdChunk [] ('2' :: '0' :: '0' :: '6' :: l)
      = ([], some .stdLongYear, l) := by
    intro l
    simp [time.nextStdChunk, time.stdAt, time.at_]
  have hend : ∀ n, time.appendFormat t n [] = [] := by
    intro n; cases n <;> simp [time.appendFormat]
  unfold Time.Format
  rw [hlen, hdata]
  rw [time.appendFormat]
  simp only [reduceCtorEq, if_false, hyear]
  rw [time.appendFormat]
  have hne : d.data ++ ['0', '1'] ≠ [] := by simp
  simp only [hne, if_false, nextStdChunk_plain d.data hd, hend]
  apply String.ext
  simp [String.data_append, time.render]

/-- A valid month is rendered with exactly two digits by the element `01`. -/
theorem appendInt_month_length (t : Time) (h : t.valid) :
    (time.appendInt t.month 2).length = 2 := by
  obtain ⟨h1, h2, _⟩ := h
  generalize t.month = m at h1 h2
  interval_cases m <;> decide

/-- For a delimiter without layout characters (such as `/` or `.`), a message with
a valid date that is not skipped gets the target root + delimiter + year +
delimiter + two-digit month. -/
theorem mboxTargetName_plain (cfg : configuration) (mbox : mailbox) (currentDate : Time)
    (msg : Message) (hdate : msg.Date.isZero = false)
    (hkept : mboxTargetName cfg mbox currentDate msg ≠ none)
    (hd : plainDelimiter mbox.Delimiter) :
    mboxTargetName cfg mbox currentDate msg
      = some (cfg.Archive ++ mbox.Delimiter ++ String.mk (time.appendInt msg.Date.year 4)
          ++ mbox.Delimiter ++ String.mk (time.appendInt msg.Date.month 2)) := by
  unfold mboxTargetName at hkept ⊢
  simp only [hdate, Bool.false_eq_true, if_false] at hkept ⊢
  split
  · rename_i h
    simp [h] at hkept
  · rw [Format_plain _ _ hd]
    simp [String.append_assoc]

/-- The scenario of the specification: root `Archive`, delimiter `/`, a message dated
2023-11-05. -/
theorem mboxTargetName_plain_scenario :
    mboxTargetName (exampleConfig false true [] [] []) ⟨"Inbox", "/"⟩ date20240315
      ⟨1, date20231105⟩ = some "Archive/2023/11" :=
  (mboxTargetName_plain (exampleConfig false true [] [] []) ⟨"Inbox", "/"⟩ date20240315
    ⟨1, date20231105⟩ rfl (by decide) (by decide)).trans (by decide)

/-- After a successful `ensureAvailable`, every cumulative path the loop rebuilds
is in the catalog. -/
theorem ensureAvailable_records_paths (cfg : configuration) (sess : Session) (mbox : mailbox)
    (s s1 : State) (h : mbox.ensureAvailable cfg sess s = (s1, none)) (k : Nat)
    (hk : k < (strings.Split mbox.Name mbox.Delimiter).length) :
    catalogHas s1.mailboxes (targetAt (strings.Split mbox.Name mbox.Delimiter) mbox.Delimiter k)
      = true :=
  (ensureLoop_spec cfg sess mbox _ _ s s1 h).2.1 k (List.mem_range.mpr hk)

/-! ## Date classification -/

/-- C2: a message whose envelope date is the zero time is classified to exactly
the archive root, whatever the delimiter, the current time and the skip flag are;
it is never skipped. -/
theorem C2_zero_date_targets_archive_root (cfg : configuration) (mbox : mailbox)
    (currentDate : Time) (msg : Message) (hzero : msg.Date.isZero = true) :
    mboxTargetName cfg mbox currentDate msg = some cfg.Archive := by
  simp [mboxTargetName, hzero]

/-- Instance of C2: skip-current-month on, run on the very day of the zero date. -/
theorem C2_zero_date_targets_archive_root_witness :
    mboxTargetName (exampleConfig false true [] [] []) ⟨"Inbox", "/"⟩ dateZero ⟨4, dateZero⟩
      = some "Archive" :=
  C2_zero_date_targets_archive_root (exampleConfig false true [] [] []) ⟨"Inbox", "/"⟩
    dateZero ⟨4, dateZero⟩ rfl

/-- C10: with skip-current-month on, a message with a valid date whose local year
and month are those of the current time of the pass is skipped: it has no target
and the loop body leaves catalog, counters and command log as they are. A message
with a valid date of another year has a target, also in the same month. -/
theorem C10_current_month_is_skipped (cfg : configuration) (sess : Session) (mbox : mailbox)
    (currentDate : Time) (s : State) (msg : Message)
    (hskip : cfg.SkipCurrent = true) (hdate : msg.Date.isZero = false)
    (hyear : currentDate.year = msg.Date.year) (hmonth : currentDate.month = msg.Date.month) :
    mboxTargetName cfg mbox currentDate msg = none ∧
    processMessage cfg sess mbox currentDate s msg = (s, none) ∧
    ∀ other : Message, other.Date.isZero = false → other.Date.month = currentDate.month →
      other.Date.year ≠ currentDate.year →
      mboxTargetName cfg mbox currentDate other =
        some (cfg.Archive ++ mbox.Delimiter ++
          other.Date.Format ("2006" ++ mbox.Delimiter ++ "01")) := by
  have h1 : mboxTargetName cfg mbox currentDate msg = none := by
    simp [mboxTargetName, hskip, hdate, hyear, hmonth]
  refine ⟨h1, ?_, ?_⟩
  · simp [processMessage, h1]
  · intro other hz _ hy
    have hy2 : ¬ currentDate.year = other.Date.year := fun h => hy h.symm
    simp [mboxTargetName, hz, hy2]

/-- Instance of C10: a run in March 2024 and a message dated 2024-03-02. -/
theorem C10_current_month_is_skipped_witness :
    mboxTargetName (exampleConfig false true ["Inbox"] [] []) ⟨"Inbox", "/"⟩ date20240315
        ⟨9, date20240302⟩ = none ∧
    processMessage (exampleConfig false true ["Inbox"] [] []) (okSession true [])
        ⟨"Inbox", "/"⟩ date20240315 (startState ["Inbox"]) ⟨9, date20240302⟩
      = (startState ["Inbox"], none) :=
  have h := C10_current_month_is_skipped (exampleConfig false true ["Inbox"] [] [])
    (okSession true []) ⟨"Inbox", "/"⟩ date20240315 (startState ["Inbox"]) ⟨9, date20240302⟩
    rfl rfl rfl rfl
  ⟨h.1, h.2.1⟩

/-- C1 (defect in the code): the delimiter is pasted into the layout handed to
`Format`, so a delimiter that is itself a layout element is replaced by a date
field. With root `Archive`, delimiter `1` and the date 2023-11-05 the code computes
`Archive120231111`, not `Archive` + `1` + `2023` + `1` + `11`. -/
theorem C1_delimiter_read_as_layout :
    mboxTargetName (exampleConfig false false [] [] []) ⟨"Inbox", "1"⟩ date20240315
        ⟨1, date20231105⟩ = some "Archive120231111" ∧
    "Archive120231111" ≠ "Archive" ++ "1" ++ "2023" ++ "1" ++ "11" := by
  decide

/-! ## Moving and counting -/

/-- C5 (defect in the code): dry-run off, a server without MOVE that rejects the
`UID COPY` of message 7. `imapClient.Move` returns the error, `moveMessage` returns
`nil`, and `processMailbox` counts the message as moved and completes. -/
theorem C5_move_failure_is_dropped :
    (imapClient.Move (failingSession false [⟨7, date20231105⟩] (.uidCopy 7 "Archive/2023/11"))
        (startState ["Inbox", "Archive", "Archive/2023", "Archive/2023/11"]) 7
        "Archive/2023/11").2 = some "NO" ∧
    (moveMessage (exampleConfig false false ["Inbox"] [] [])
        (failingSession false [⟨7, date20231105⟩] (.uidCopy 7 "Archive/2023/11"))
        (startState ["Inbox", "Archive", "Archive/2023", "Archive/2023/11"]) 7
        ⟨"Archive/2023/11", "/"⟩).2 = none ∧
    processMailbox (exampleConfig false false ["Inbox"] [] [])
        (failingSession false [⟨7, date20231105⟩] (.uidCopy 7 "Archive/2023/11"))
        ⟨"Inbox", "/"⟩ (startState ["Inbox", "Archive", "Archive/2023", "Archive/2023/11"])
      = ({ startState ["Inbox", "Archive", "Archive/2023", "Archive/2023/11"] with
            cntMbox := 1, cntMsg := 1,
            log := [.select "Inbox", .uidFetch, .uidCopy 7 "Archive/2023/11"] }, none) := by
  decide

/-- C8: with dry-run on, once `SELECT` and `UID FETCH` have succeeded (and the
UIDs are accepted as sequence sets), `processMailbox` succeeds having sent these
two commands and nothing else (no create, move, copy, store or expunge);
`cntMbox` grows by 1 and `cntMsg` by the number of fetched messages whose target
differs from the mailbox; the catalog and both counters end up exactly as in the
run with dry-run off in which every command succeeds. The would-be-created
folders are recorded: for every fetched message that is to be moved, every
cumulative path of its target is in the catalog afterwards, and the catalog is
the old one followed by exactly the folders that the succeeding run with dry-run
off creates on the server, in the order of their creation. -/
theorem C8_dry_run_counts_without_commands (cfg : configuration) (sess : Session)
    (mbox : mailbox) (s : State) (hdry : cfg.Dry = true)
    (hselect : sess.respond s.log (.select mbox.Name) = none)
    (hrange : sess.parseSeqSet "1:*" = none)
    (hfetch : sess.respond (s.log ++ [.select mbox.Name]) .uidFetch = none)
    (huid : ∀ msg ∈ sess.envelopes (s.log ++ [.select mbox.Name]),
      sess.parseSeqSet (toString msg.Uid) = none) :
    (processMailbox cfg sess mbox s).2 = none ∧
    (processMailbox cfg sess mbox s).1.log = s.log ++ [.select mbox.Name, .uidFetch] ∧
    (processMailbox cfg sess mbox s).1.cntMbox = s.cntMbox + 1 ∧
    (processMailbox cfg sess mbox s).1.cntMsg
      = s.cntMsg + (sess.envelopes (s.log ++ [.select mbox.Name])).countP
          (needsMove cfg mbox (sess.now (s.log ++ [.select mbox.Name, .uidFetch]))) ∧
    (processMailbox cfg.wet sess.allSucceed mbox s).2 = none ∧
    books (processMailbox cfg.wet sess.allSucceed mbox s).1
      = books (processMailbox cfg sess mbox s).1 ∧
    (∀ msg ∈ sess.envelopes (s.log ++ [.select mbox.Name]), ∀ name,
      mboxTargetName cfg mbox (sess.now (s.log ++ [.select mbox.Name, .uidFetch])) msg
        = some name →
      mbox.Name ≠ name → ∀ k, k < (strings.Split name mbox.Delimiter).length →
        catalogHas (processMailbox cfg sess mbox s).1.mailboxes
          (targetAt (strings.Split name mbox.Delimiter) mbox.Delimiter k) = true) ∧
    (processMailbox cfg sess mbox s).1.mailboxes
      = s.mailboxes ++
          ((createdNames (processMailbox cfg.wet sess.allSucceed mbox s).1.log).drop
            (createdNames s.log).length).map (fun t => (⟨t, mbox.Delimiter⟩ : mailbox)) := by
  have hrange2 : sess.allSucceed.parseSeqSet "1:*" = none := hrange
  have hresp : ∀ l c, sess.allSucceed.respond l c = none := fun _ _ => rfl
  have henv : sess.allSucceed.envelopes = sess.envelopes := rfl
  have hnow : sess.allSucceed.now = sess.now := rfl
  obtain ⟨added, w1, w2⟩ := processMailbox_wet_creates cfg.wet sess.allSucceed mbox rfl hresp s
  have hdrop : (createdNames (processMailbox cfg.wet sess.allSucceed mbox s).1.log).drop
      (createdNames s.log).length = added := by
    rw [w2]; simp
  rw [hdrop]
  have key :
      (processMailbox cfg sess mbox s).2 = none ∧
      (processMailbox cfg sess mbox s).1.log = s.log ++ [.select mbox.Name, .uidFetch] ∧
      (processMailbox cfg sess mbox s).1.cntMbox = s.cntMbox + 1 ∧
      (processMailbox cfg sess mbox s).1.cntMsg
        = s.cntMsg + (sess.envelopes (s.log ++ [.select mbox.Name])).countP
            (needsMove cfg mbox (sess.now (s.log ++ [.select mbox.Name, .uidFetch]))) ∧
      (processMailbox cfg.wet sess.allSucceed mbox s).2 = none ∧
      books (processMailbox cfg.wet sess.allSucceed mbox s).1
        = books (processMailbox cfg sess mbox s).1 ∧
      (∀ msg ∈ sess.envelopes (s.log ++ [.select mbox.Name]), ∀ name,
        mboxTargetName cfg mbox (sess.now (s.log ++ [.select mbox.Name, .uidFetch])) msg
          = some name →
        mbox.Name ≠ name → ∀ k, k < (strings.Split name mbox.Delimiter).length →
          catalogHas (processMailbox cfg sess mbox s).1.mailboxes
            (targetAt (strings.Split name mbox.Delimiter) mbox.Delimiter k) = true) := by
    unfold processMailbox
    simp only [send, hselect, hrange, hfetch, hrange2, hresp, henv, hnow, List.append_assoc,
      List.singleton_append]
    obtain ⟨h1, h2, h3, h4, h5, h6⟩ := messageLoop_dry_sim cfg sess mbox
      (sess.now (s.log ++ [.select mbox.Name, .uidFetch])) hdry
      (sess.envelopes (s.log ++ [.select mbox.Name]))
      { s with log := s.log ++ [.select mbox.Name, .uidFetch] }
      { s with log := s.log ++ [.select mbox.Name, .uidFetch] } rfl huid
    obtain ⟨_, p2⟩ := messageLoop_dry_paths cfg sess mbox
      (sess.now (s.log ++ [.select mbox.Name, .uidFetch])) hdry
      (sess.envelopes (s.log ++ [.select mbox.Name]))
      { s with log := s.log ++ [.select mbox.Name, .uidFetch] } huid
    generalize messageLoop cfg sess mbox (sess.now (s.log ++ [.select mbox.Name, .uidFetch]))
      (sess.envelopes (s.log ++ [.select mbox.Name]))
      { s with log := s.log ++ [.select mbox.Name, .uidFetch] } = rA at h1 h2 h3 h4 h6 p2 ⊢
    generalize messageLoop cfg.wet sess.allSucceed mbox
      (sess.now (s.log ++ [.select mbox.Name, .uidFetch]))
      (sess.envelopes (s.log ++ [.select mbox.Name]))
      { s with log := s.log ++ [.select mbox.Name, .uidFetch] } = rB at h5 h6 ⊢
    obtain ⟨sA, eA⟩ := rA
    obtain ⟨sB, eB⟩ := rB
    dsimp only at h1 h2 h3 h4 h5 h6 p2
    subst h1 h5
    dsimp only
    refine ⟨rfl, h2, by rw [h3], h4, rfl, ?_, p2⟩
    simp only [books, Prod.mk.injEq] at h6 ⊢
    simp [h6.1, h6.2.1, h6.2.2]
  obtain ⟨k1, k2, k3, k4, k5, k6, k7⟩ := key
  refine ⟨k1, k2, k3, k4, k5, k6, k7, ?_⟩
  have hm : (processMailbox cfg.wet sess.allSucceed mbox s).1.mailboxes
      = (processMailbox cfg sess mbox s).1.mailboxes := congrArg Prod.fst k6
  rw [← hm]
  exact w1

/-- Instance of C8: dry run on `Inbox` holding one message dated 2023-11-05. The two
counters go from 0 to 1 and 1, only `SELECT` and `UID FETCH` are sent, and the
catalog receives `Archive`, `Archive/2023` and `Archive/2023/11`. -/
theorem C8_dry_run_counts_without_commands_witness :
    (processMailbox (exampleConfig true false ["Inbox"] [] [])
        (okSession true [⟨7, date20231105⟩]) ⟨"Inbox", "/"⟩ (startState ["Inbox"])).1.log
      = [.select "Inbox", .uidFetch] ∧
    (processMailbox (exampleConfig true false ["Inbox"] [] [])
        (okSession true [⟨7, date20231105⟩]) ⟨"Inbox", "/"⟩ (startState ["Inbox"])).1.cntMbox
      = 1 ∧
    (processMailbox (exampleConfig true false ["Inbox"] [] [])
        (okSession true [⟨7, date20231105⟩]) ⟨"Inbox", "/"⟩ (startState ["Inbox"])).1.cntMsg
      = 1 ∧
    (processMailbox (exampleConfig true false ["Inbox"] [] [])
        (okSession true [⟨7, date20231105⟩]) ⟨"Inbox", "/"⟩ (startState ["Inbox"])).1.mailboxes
      = [⟨"Inbox", "/"⟩, ⟨"Archive", "/"⟩, ⟨"Archive/2023", "/"⟩, ⟨"Archive/2023/11", "/"⟩] ∧
    catalogHas (processMailbox (exampleConfig true false ["Inbox"] [] [])
        (okSession true [⟨7, date20231105⟩]) ⟨"Inbox", "/"⟩ (startState ["Inbox"])).1.mailboxes
      "Archive/2023/11" = true :=
  have h := C8_dry_run_counts_without_commands (exampleConfig true false ["Inbox"] [] [])
    (okSession true [⟨7, date20231105⟩]) ⟨"Inbox", "/"⟩ (startState ["Inbox"])
    rfl rfl rfl rfl (fun _ _ => rfl)
  ⟨h.2.1, h.2.2.1, h.2.2.2.1.trans (by decide), h.2.2.2.2.2.2.2.trans (by decide),
    h.2.2.2.2.2.2.1 ⟨7, date20231105⟩ (by decide) "Archive/2023/11" (by decide) (by decide)
      2 (by decide)⟩

/-! ## Folder creation -/

/-- C7 (defect in the code): the target `/2023/11` (archive root left empty,
delimiter `/`) splits into an empty first segment; the rebuilt paths are the empty
name, `2023` and `2023/11`, so the catalog never receives `/2023/11`, the name the
following move is addressed to. -/
theorem C7_leading_delimiter_is_lost :
    mailbox.ensureAvailable (exampleConfig false false [] [] []) (okSession true [])
        ⟨"/2023/11", "/"⟩ (startState ["Inbox"])
      = ({ startState ["Inbox"] with
            mailboxes := [⟨"Inbox", "/"⟩, ⟨"", "/"⟩, ⟨"2023", "/"⟩, ⟨"2023/11", "/"⟩],
            log := [.create "", .create "2023", .create "2023/11"] }, none) ∧
    catalogHas (mailbox.ensureAvailable (exampleConfig false false [] [] []) (okSession true [])
        ⟨"/2023/11", "/"⟩ (startState ["Inbox"])).1.mailboxes "/2023/11" = false ∧
    (processMailbox { exampleConfig false false [] [] [] with Archive := "" }
        (okSession true [⟨7, date20231105⟩]) ⟨"Inbox", "/"⟩ (startState ["Inbox"])).1.log
      = [.select "Inbox", .uidFetch, .create "", .create "2023", .create "2023/11",
         .uidMove 7 "/2023/11"] := by
  decide

/-- C6: after a successful `ensureAvailable`, a second call for the same target
(under any session) sends no command and leaves catalog, counters and log as they
are; the commands of the first call are `CREATE`s of pairwise different names that
were not in the catalog before, so over both calls no path is created twice. -/
theorem C6_ensureAvailable_idempotent (cfg : configuration) (sess : Session) (mbox : mailbox)
    (s s1 : State) (hfirst : mbox.ensureAvailable cfg sess s = (s1, none)) :
    (∀ sess2 : Session, mbox.ensureAvailable cfg sess2 s1 = (s1, none)) ∧
    ∃ created : List String,
      s1.log = s.log ++ created.map Command.create ∧ created.Nodup ∧
      ∀ t ∈ created, catalogHas s.mailboxes t = false := by
  unfold mailbox.ensureAvailable at hfirst ⊢
  obtain ⟨_, hall, created, hlog, hnd, hcr⟩ := ensureLoop_spec cfg sess mbox _ _ s s1 hfirst
  refine ⟨fun sess2 => ensureLoop_noop cfg sess2 mbox _ _ s1 hall, created, hlog, hnd, ?_⟩
  exact fun t ht => (hcr t ht).1

/-- Instance of C6: target `Archive/2023/11` on a catalog that has only `Inbox` and
`Archive`; the first call creates `Archive/2023` and `Archive/2023/11`. -/
theorem C6_ensureAvailable_idempotent_witness :
    (∀ sess2 : Session,
      mailbox.ensureAvailable (exampleConfig false false [] [] []) sess2
          ⟨"Archive/2023/11", "/"⟩
          { startState ["Inbox", "Archive", "Archive/2023", "Archive/2023/11"] with
            log := [.create "Archive/2023", .create "Archive/2023/11"] }
        = ({ startState ["Inbox", "Archive", "Archive/2023", "Archive/2023/11"] with
            log := [.create "Archive/2023", .create "Archive/2023/11"] }, none)) ∧
    ∃ created : List String,
      [Command.create "Archive/2023", Command.create "Archive/2023/11"]
        = (startState ["Inbox", "Archive"]).log ++ created.map Command.create ∧
      created.Nodup ∧
      ∀ t ∈ created, catalogHas (startState ["Inbox", "Archive"]).mailboxes t = false :=
  C6_ensureAvailable_idempotent (exampleConfig false false [] [] []) (okSession true [])
    ⟨"Archive/2023/11", "/"⟩ (startState ["Inbox", "Archive"])
    { startState ["Inbox", "Archive", "Archive/2023", "Archive/2023/11"] with
      log := [.create "Archive/2023", .create "Archive/2023/11"] } (by decide)

/-! ## The selector loop -/

/-- C3: a mailbox whose name starts with a configured ignore-prefix is never handed
to `processMailbox` by `action` (no `SELECT` of its name is sent during the run),
whatever the exact-match and recursive-prefix lists contain. -/
theorem C3_ignored_mailbox_never_processed (cfg : configuration) (sess : Session) (s : State)
    (m : mailbox) (_hm : m ∈ s.mailboxes)
    (hignore : ∃ iM ∈ cfg.IgnoreMailboxes, strings.HasPrefix m.Name iM = true) :
    (action cfg sess s).1.log.count (Command.select m.Name)
      = s.log.count (Command.select m.Name) := by
  have hx : cfg.IgnoreMailboxes.any (fun iM => strings.HasPrefix m.Name iM) = true := by
    obtain ⟨iM, h1, h2⟩ := hignore
    exact List.any_eq_true.mpr ⟨iM, h1, h2⟩
  have e := selectCount_mboxLoop m.Name cfg sess hx s.mailboxes s
  change selectCount m.Name (action cfg sess s).1 = selectCount m.Name s
  unfold action
  split
  · rename_i h; rw [h] at e; exact e
  · rename_i s1 h
    rw [h] at e
    exact (selectCount_send m.Name sess s1 .logout (by simp)).trans e

/-- Instance of C3: mailbox `A/B`, ignore-prefix `A`, exact-match entry `A/B` (and a
recursive-prefix entry `A`): no `SELECT A/B` is sent. -/
theorem C3_ignored_mailbox_never_processed_witness :
    (action (exampleConfig false false ["A/B"] ["A"] ["A"]) (okSession true [])
        (startState ["A/B"])).1.log.count (Command.select "A/B") = 0 :=
  C3_ignored_mailbox_never_processed (exampleConfig false false ["A/B"] ["A"] ["A"])
    (okSession true []) (startState ["A/B"]) ⟨"A/B", "/"⟩ (by decide) ⟨"A", by decide, by decide⟩

/-- C4 (defect in the code): the catalog holds the single mailbox `Inbox`, which
is both an exact-match entry and a recursive-prefix entry; `processMailbox` runs
twice on it (two `SELECT Inbox`) and `cntMbox` ends at 2. -/
theorem C4_mailbox_processed_per_matching_entry :
    action (exampleConfig false false ["Inbox"] ["Inbox"] []) (okSession true [])
        (startState ["Inbox"])
      = ({ startState ["Inbox"] with
            cntMbox := 2,
            log := [.select "Inbox", .uidFetch, .select "Inbox", .uidFetch, .logout] }, none) := by
  decide

/-- C9 (defect in the code): `Inbox` and `Other` are exact-match entries and the
server rejects `SELECT Inbox`. The failure of `processMailbox` is not looked at:
`Other` is processed next and `action` returns `nil` after `Logout`. -/
theorem C9_exact_match_failure_is_dropped :
    processMailbox (exampleConfig false false ["Inbox", "Other"] [] [])
        (failingSession true [] (.select "Inbox")) ⟨"Inbox", "/"⟩ (startState ["Inbox", "Other"])
      = ({ startState ["Inbox", "Other"] with log := [.select "Inbox"] }, some "NO") ∧
    action (exampleConfig false false ["Inbox", "Other"] [] [])
        (failingSession true [] (.select "Inbox")) (startState ["Inbox", "Other"])
      = ({ startState ["Inbox", "Other"] with
            cntMbox := 1,
            log := [.select "Inbox", .select "Other", .uidFetch, .logout] }, none) := by
  decide

end Mailarchiver
